import Mathlib

/-!
Verification of the pkglist tool (`src/main.rs`): a shallow embedding of its
cache-invalidation, log-parsing and reconciliation pipeline, together with
theorems checking the natural-language specification against the code.

Modelling conventions:
* machine bytes are `Nat` values `< 256`; `u64` arithmetic is `Nat` arithmetic
  taken `% 2^64` where overflow matters;
* file-system effects are made explicit (an environment record carries what
  each I/O call would return, and results record which calls happened);
* terminal colourisation (`ansi_term::paint`) is out of scope per the spec's
  §1 and is modelled as the identity on the printed text.
-/

/-! ### Bytes and lines (the `memchr` loop of `parse_log_entries`) -/

/-- Accumulator-passing worker splitting a byte list at newline (10) bytes.
Bytes after the final newline are dropped, mirroring the `memchr` loop in
`parse_log_entries`, which only ever yields newline-terminated lines. -/
def linesAux : List Nat → List Nat → List (List Nat)
  | [], _ => []
  | b :: rest, acc =>
    if b = 10 then acc.reverse :: linesAux rest []
    else linesAux rest (b :: acc)

/-- The newline-terminated lines of a byte list (each without its newline),
exactly the lines visited by the `while let Some(newline_pos) = memchr(..)`
loop of `parse_log_entries` in `src/main.rs`. -/
def terminatedLines (content : List Nat) : List (List Nat) :=
  linesAux content []

/-! ### UTF-8 (`std::str::from_utf8`) -/

/-- Strict UTF-8 decoding of a byte list into its scalar values, rejecting
truncated sequences, overlong encodings, surrogates and values above
U+10FFFF — the validation performed by `std::str::from_utf8`. -/
def utf8Decode : List Nat → Option (List Nat)
  | [] => some []
  | b :: rest =>
    if b < 0x80 then (utf8Decode rest).map (b :: ·)
    else if b < 0xC0 then none
    else if b < 0xE0 then
      match rest with
      | b1 :: rest2 =>
        if 0x80 ≤ b1 ∧ b1 < 0xC0 then
          let cp := (b - 0xC0) * 0x40 + (b1 - 0x80)
          if cp < 0x80 then none else (utf8Decode rest2).map (cp :: ·)
        else none
      | _ => none
    else if b < 0xF0 then
      match rest with
      | b1 :: b2 :: rest2 =>
        if (0x80 ≤ b1 ∧ b1 < 0xC0) ∧ (0x80 ≤ b2 ∧ b2 < 0xC0) then
          let cp := (b - 0xE0) * 0x1000 + (b1 - 0x80) * 0x40 + (b2 - 0x80)
          if cp < 0x800 ∨ (0xD800 ≤ cp ∧ cp ≤ 0xDFFF) then none
          else (utf8Decode rest2).map (cp :: ·)
        else none
      | _ => none
    else if b < 0xF8 then
      match rest with
      | b1 :: b2 :: b3 :: rest2 =>
        if (0x80 ≤ b1 ∧ b1 < 0xC0) ∧ (0x80 ≤ b2 ∧ b2 < 0xC0) ∧ (0x80 ≤ b3 ∧ b3 < 0xC0) then
          let cp := (b - 0xF0) * 0x40000 + (b1 - 0x80) * 0x1000 + (b2 - 0x80) * 0x40 + (b3 - 0x80)
          if cp < 0x10000 ∨ 0x10FFFF < cp then none
          else (utf8Decode rest2).map (cp :: ·)
        else none
      | _ => none
    else none

/-- UTF-8 encoding of one scalar value (used when hashing `String`s the way
`std`'s `Hash for str` feeds their bytes to the hasher). -/
def utf8EncodeCp (c : Nat) : List Nat :=
  if c < 0x80 then [c]
  else if c < 0x800 then [0xC0 + c / 0x40, 0x80 + c % 0x40]
  else if c < 0x10000 then
    [0xE0 + c / 0x1000, 0x80 + c / 0x40 % 0x40, 0x80 + c % 0x40]
  else
    [0xF0 + c / 0x40000, 0x80 + c / 0x1000 % 0x40, 0x80 + c / 0x40 % 0x40, 0x80 + c % 0x40]

/-! ### The line grammar `LOG_REGEX`

`\[([0-9T:+-]+)\] \[ALPM\] (installed|upgraded|removed) ([^\s(]+)`, searched
(unanchored) left to right over the line.  Both `+`-classes are free of the
characters that follow them in the pattern, so greedy maximal munch needs no
backtracking, and the three alternation branches start with distinct letters,
so leftmost-first alternation is plain first-success choice. -/

/-- Membership in the character class `[0-9T:+-]` of `LOG_REGEX`. -/
def isTsChar (c : Nat) : Bool :=
  (48 ≤ c && c ≤ 57) || c = 84 || c = 58 || c = 43 || c = 45

/-- Unicode `White_Space` scalar values: the set matched by `\s` in the Rust
regex crate (Unicode mode) and by Rust's `char::is_whitespace`. -/
def isWsChar (c : Nat) : Bool :=
  (9 ≤ c && c ≤ 13) || c = 32 || c = 0x85 || c = 0xA0 || c = 0x1680 ||
  (0x2000 ≤ c && c ≤ 0x200A) || c = 0x2028 || c = 0x2029 ||
  c = 0x202F || c = 0x205F || c = 0x3000

/-- The scalar values of a string literal (all literals used here are ASCII). -/
def strCps (s : String) : List Nat :=
  s.data.map Char.toNat

/-- Match a literal scalar sequence at the head of the input, returning the
remainder on success. -/
def expectLit : List Nat → List Nat → Option (List Nat)
  | [], input => some input
  | _ :: _, [] => none
  | p :: ps, c :: cs => if c = p then expectLit ps cs else none

/-- Match ` ([^\s(]+)` — the tail of `LOG_REGEX` after the action keyword:
a space, then a maximal nonempty run of characters that are neither
whitespace nor `(`. -/
def matchPkgTail (input : List Nat) : Option (List Nat) :=
  match input with
  | 32 :: rest =>
    let pkg := rest.takeWhile (fun c => !isWsChar c && c ≠ 40)
    if pkg = [] then none else some pkg
  | _ => none

/-- Try one alternation branch `act` of `(installed|upgraded|removed)`
followed by the package tail, at the given input position. -/
def tryAction (act : String) (input : List Nat) : Option (List Nat × List Nat) :=
  match expectLit (strCps act) input with
  | none => none
  | some rest => (matchPkgTail rest).map (fun pkg => (strCps act, pkg))

/-- Attempt `LOG_REGEX` anchored at the head of `s`; on success return the
three capture groups (timestamp, action keyword, package name). -/
def tryMatchAt (s : List Nat) : Option (List Nat × List Nat × List Nat) :=
  match s with
  | 91 :: rest =>
    let date := rest.takeWhile isTsChar
    if date = [] then none
    else
      match expectLit (strCps "] [ALPM] ") (rest.drop date.length) with
      | none => none
      | some rest2 =>
        match tryAction "installed" rest2 <|> tryAction "upgraded" rest2 <|>
              tryAction "removed" rest2 with
        | none => none
        | some (act, pkg) => some (date, act, pkg)
  | _ => none

/-- Leftmost search of `LOG_REGEX` over the scalar values of a line, as
`Regex::captures` performs it. -/
def regexSearch : List Nat → Option (List Nat × List Nat × List Nat)
  | [] => none
  | c :: rest =>
    match tryMatchAt (c :: rest) with
    | some r => some r
    | none => regexSearch rest

/-! ### `parse_log_entries` -/

/-- Scalar values rendered back into a `String` (decoded UTF-8 is always in
scalar range, so `Char.ofNat` is exact on every input we feed it). -/
def cpsToString (cps : List Nat) : String :=
  String.mk (cps.map Char.ofNat)

/-- The `PackageInfo` struct of `src/main.rs`: a date string and a status
tag (`"INS"`, `"UPG"`, `"REM"` as produced by the parser). -/
structure PackageInfo where
  date : String
  status : String
deriving Repr, DecidableEq

/-- `HashMap::insert`: replace the value at the key if present, otherwise add
the binding.  Association lists stand in for `HashMap`s; all map claims are
stated through `List.lookup`. -/
def assocInsert {α : Type} (m : List (String × α)) (k : String) (v : α) :
    List (String × α) :=
  match m with
  | [] => [(k, v)]
  | (k1, v1) :: rest =>
    if k1 = k then (k, v) :: rest else (k1, v1) :: assocInsert rest k v

/-- The event one newline-terminated line contributes in `parse_log_entries`:
`none` for lines under 50 bytes (the cheap early rejection), for bytes that
are not valid UTF-8 (`from_utf8(..).unwrap_or("")` makes the regex see an
empty string) and for lines `LOG_REGEX` does not match; otherwise the package
name with its date and status.  The action keyword is mapped exactly as the
`match action` block does. -/
def lineEvent (line : List Nat) : Option (String × PackageInfo) :=
  if line.length < 50 then none
  else
    match utf8Decode line with
    | none => none
    | some cps =>
      match regexSearch cps with
      | none => none
      | some (date, act, pkg) =>
        let status :=
          if act = strCps "installed" then "INS"
          else if act = strCps "upgraded" then "UPG"
          else "REM"
        some (cpsToString pkg, ⟨cpsToString date, status⟩)

/-- One iteration of the scanning loop: a matching line overwrites the map
entry for its package, any other line leaves the map unchanged. -/
def applyLine (m : List (String × PackageInfo)) (line : List Nat) :
    List (String × PackageInfo) :=
  match lineEvent line with
  | none => m
  | some (k, v) => assocInsert m k v

/-- `parse_log_entries` of `src/main.rs`: fold the scanning loop over the
newline-terminated lines of the log bytes, starting from the empty map. -/
def parse_log_entries (log_content : List Nat) : List (String × PackageInfo) :=
  (terminatedLines log_content).foldl applyLine []

/-! ### `calculate_pkg_hash`

`DefaultHasher` is SipHash-1-3 keyed with `(0, 0)`; `Vec<String>::hash` feeds
it the length as 8 little-endian bytes (64-bit platform) followed by, for each
string, its UTF-8 bytes and a `0xFF` terminator. -/

/-- Rotate a 64-bit word left by `r` bits. -/
def rotl (r a : Nat) : Nat :=
  (a % 2 ^ (64 - r)) * 2 ^ r + a / 2 ^ (64 - r)

/-- Addition on 64-bit words. -/
def wadd (a b : Nat) : Nat :=
  (a + b) % 2 ^ 64

/-- One SipHash round on the state `(v0, v1, v2, v3)`. -/
def sipRound (st : Nat × Nat × Nat × Nat) : Nat × Nat × Nat × Nat :=
  let (v0, v1, v2, v3) := st
  let v0 := wadd v0 v1
  let v1 := rotl 13 v1
  let v1 := v1 ^^^ v0
  let v0 := rotl 32 v0
  let v2 := wadd v2 v3
  let v3 := rotl 16 v3
  let v3 := v3 ^^^ v2
  let v0 := wadd v0 v3
  let v3 := rotl 21 v3
  let v3 := v3 ^^^ v0
  let v2 := wadd v2 v1
  let v1 := rotl 17 v1
  let v1 := v1 ^^^ v2
  let v2 := rotl 32 v2
  (v0, v1, v2, v3)

/-- Absorb one 8-byte message word: SipHash-1-3 runs a single round per word. -/
def sipCompress (m : Nat) (st : Nat × Nat × Nat × Nat) : Nat × Nat × Nat × Nat :=
  let (v0, v1, v2, v3) := st
  let (v0, v1, v2, v3) := sipRound (v0, v1, v2, v3 ^^^ m)
  (v0 ^^^ m, v1, v2, v3)

/-- A little-endian 64-bit word from (up to) 8 bytes. -/
def le64 (bs : List Nat) : Nat :=
  bs.foldr (fun b acc => b + acc * 0x100) 0

/-- Absorb all full 8-byte blocks of the message, returning the final state
and the remaining tail of fewer than 8 bytes. -/
def sipBlocks (st : Nat × Nat × Nat × Nat) :
    List Nat → (Nat × Nat × Nat × Nat) × List Nat
  | b0 :: b1 :: b2 :: b3 :: b4 :: b5 :: b6 :: b7 :: rest =>
    sipBlocks (sipCompress (le64 [b0, b1, b2, b3, b4, b5, b6, b7]) st) rest
  | rest => (st, rest)

/-- SipHash-1-3 with key `(0, 0)` over a byte message: the exact function
`DefaultHasher::new()`/`finish()` computes. -/
def siphash13 (msg : List Nat) : Nat :=
  let st : Nat × Nat × Nat × Nat :=
    (0x736f6d6570736575, 0x646f72616e646f6d, 0x6c7967656e657261, 0x7465646279746573)
  let (st1, tail) := sipBlocks st msg
  let lastWord := le64 tail + msg.length % 0x100 * 2 ^ 56
  let (v0, v1, v2, v3) := sipCompress lastWord st1
  let (v0, v1, v2, v3) := sipRound (sipRound (sipRound (v0, v1, v2 ^^^ 0xFF, v3)))
  v0 ^^^ v1 ^^^ v2 ^^^ v3

/-- The 8 little-endian bytes of a `usize` length prefix. -/
def le64Bytes (n : Nat) : List Nat :=
  [n % 0x100, n / 2 ^ 8 % 0x100, n / 2 ^ 16 % 0x100, n / 2 ^ 24 % 0x100,
   n / 2 ^ 32 % 0x100, n / 2 ^ 40 % 0x100, n / 2 ^ 48 % 0x100, n / 2 ^ 56 % 0x100]

/-- The UTF-8 bytes of a string. -/
def strBytes (s : String) : List Nat :=
  (s.data.map (fun c => utf8EncodeCp c.toNat)).foldr (· ++ ·) []

/-- `calculate_pkg_hash` of `src/main.rs`: hash the package list with
`DefaultHasher` under the `Hash` protocol for `&[String]` (length prefix,
then each string's bytes followed by `0xFF`). -/
def calculate_pkg_hash (pkgs : List String) : Nat :=
  siphash13 (le64Bytes pkgs.length ++ (pkgs.map (fun s => strBytes s ++ [0xFF])).foldr (· ++ ·) [])

/-! ### `read_current_packages` -/

/-- Split a character list at every newline, keeping the final segment
(`str::split('\n')`-like worker for modelling `lines()`). -/
def splitNlAux : List Char → List Char → List (List Char)
  | [], acc => [acc.reverse]
  | c :: rest, acc =>
    if c = '\n' then acc.reverse :: splitNlAux rest []
    else splitNlAux rest (c :: acc)

/-- Rust `str::trim`: drop Unicode whitespace from both ends. -/
def trimWs (cs : List Char) : List Char :=
  ((cs.dropWhile (fun c => isWsChar c.toNat)).reverse.dropWhile
    (fun c => isWsChar c.toNat)).reverse

/-- `read_current_packages` of `src/main.rs`, with the process boundary made
explicit: `none` models a failed spawn or a non-success exit status (both
collapse to `None` in the source and fall to `unwrap_or_default`), `some out`
models captured stdout after `from_utf8_lossy`.  The stdout is split into
lines, each trimmed, and empty lines are dropped; splitting on every newline
and then dropping trimmed-empty segments coincides with Rust's `lines()`
(which merely strips the `\r`/final empty segment that trimming removes
anyway). -/
def read_current_packages (cmdOut : Option String) : List String :=
  match cmdOut with
  | none => []
  | some out =>
    (splitNlAux out.data []).filterMap
      (fun line =>
        let t := trimWs line
        if t = [] then none else some (String.mk t))

/-! ### The cache store (`CacheData`, `load_cache`, `save_cache`)

The spec (§1, §6) treats the on-disk JSON encoding as an opaque structured
blob with logical schema `{pkg_hash, last_log_size, data}`, so files hold
parsed JSON trees rather than byte strings; `serde_json::to_vec` becomes
`encodeCacheData` and `serde_json::from_slice` becomes `decodeCacheData`. -/

/-- The `CacheData` struct of `src/main.rs`.  `pkg_hash` and `last_log_size`
are `u64` values (`Nat`s below `2 ^ 64` in every record the program builds). -/
structure CacheData where
  pkg_hash : Nat
  last_log_size : Nat
  data : List (String × PackageInfo)
deriving Repr, DecidableEq

/-- JSON trees, restricted to the constructors this schema can produce. -/
inductive Json where
  | num (n : Nat)
  | str (s : String)
  | obj (fields : List (String × Json))

/-- Serialisation of one `PackageInfo` (serde derive: an object with the two
named fields). -/
def encodePackageInfo (i : PackageInfo) : Json :=
  .obj [("date", .str i.date), ("status", .str i.status)]

/-- Serialisation of a `CacheData` record, as `serde_json::to_vec` lays it
out: the three named fields, the event map as an object keyed by package. -/
def encodeCacheData (c : CacheData) : Json :=
  .obj [("pkg_hash", .num c.pkg_hash), ("last_log_size", .num c.last_log_size),
        ("data", .obj (c.data.map (fun kv => (kv.1, encodePackageInfo kv.2))))]

/-- Deserialisation of a `PackageInfo`: both fields must be present as
strings; fields are found by name (extra fields are ignored, as serde derive
does for this struct). -/
def decodePackageInfo : Json → Option PackageInfo
  | .obj fields =>
    match List.lookup "date" fields, List.lookup "status" fields with
    | some (.str d), some (.str st) => some ⟨d, st⟩
    | _, _ => none
  | _ => none

/-- Deserialise every entry of the event-map object, failing if any value
fails. -/
def decodeEntries : List (String × Json) → Option (List (String × PackageInfo))
  | [] => some []
  | (k, j) :: rest =>
    match decodePackageInfo j, decodeEntries rest with
    | some v, some tail => some ((k, v) :: tail)
    | _, _ => none

/-- Deserialisation of a `CacheData`: named fields, `u64` range checks on the
numbers, and the event object rebuilt by successive `HashMap::insert`s (the
way serde fills a `HashMap`). -/
def decodeCacheData : Json → Option CacheData
  | .obj fields =>
    match List.lookup "pkg_hash" fields, List.lookup "last_log_size" fields,
          List.lookup "data" fields with
    | some (.num h), some (.num sz), some (.obj evs) =>
      if h < 2 ^ 64 ∧ sz < 2 ^ 64 then
        (decodeEntries evs).map
          (fun l => ⟨h, sz, l.foldl (fun m kv => assocInsert m kv.1 kv.2) []⟩)
      else none
    | _, _, _ => none
  | _ => none

/-- File contents as a cache reader can encounter them: a completely written
JSON blob, or the half-written bytes a crash in the middle of `fs::write`
leaves behind (which no decoder accepts). -/
inductive FileData where
  | complete (j : Json)
  | midWrite

/-- A file system: path to content. -/
def FsState : Type := String → Option FileData

/-- Write (create or truncate) one path, as `fs::write` does on completion. -/
def fsSet (fs : FsState) (p : String) (c : Option FileData) : FsState :=
  fun q => if q = p then c else fs q

/-- `fs::rename src dst`: `dst` takes the content of `src` and `src`
disappears, in one atomic step. -/
def fsRename (fs : FsState) (src dst : String) : FsState :=
  fun q => if q = dst then fs src else if q = src then none else fs q

/-- `Path::with_extension("tmp")` on a path string: in the final component
(after the last `/`), the extension — the suffix after the last `.`, provided
that `.` is not the component's first character — is replaced by `tmp`; a
component with no extension gets `.tmp` appended. -/
def withExtTmp (p : String) : String :=
  let cs := p.data
  let nameLen := (cs.reverse.takeWhile (fun c => c ≠ '/')).length
  let dir := cs.take (cs.length - nameLen)
  let name := cs.drop (cs.length - nameLen)
  let extLen := (name.reverse.takeWhile (fun c => c ≠ '.')).length
  let newName :=
    if extLen < name.length ∧ 0 < name.length - extLen - 1 then
      name.take (name.length - extLen - 1) ++ ('.' :: "tmp".data)
    else name ++ ('.' :: "tmp".data)
  String.mk (dir ++ newName)

/-- `load_cache` of `src/main.rs`: read the file; absence, unreadability and
decode failure all collapse to `none`. -/
def load_cache (fs : FsState) (cache_file : String) : Option CacheData :=
  match fs cache_file with
  | some (.complete j) => decodeCacheData j
  | _ => none

/-- `save_cache` of `src/main.rs`: write the encoded record to the `.tmp`
sibling, then rename it over the target. -/
def save_cache (fs : FsState) (cache_file : String) (data : CacheData) : FsState :=
  fsRename (fsSet fs (withExtTmp cache_file) (some (.complete (encodeCacheData data))))
    (withExtTmp cache_file) cache_file

/-- Every file-system state a concurrent reader (or a post-crash inspection)
can observe during `save_cache`: before anything happens, with the temporary
file half-written (`w = midWrite`) or fully written, and after the rename.
`w` ranges over whatever content an interrupted `fs::write` left. -/
def saveStates (fs : FsState) (cache_file : String) (data : CacheData)
    (w : FileData) : List FsState :=
  [fs,
   fsSet fs (withExtTmp cache_file) (some w),
   fsSet fs (withExtTmp cache_file) (some (.complete (encodeCacheData data))),
   save_cache fs cache_file data]

/-! ### `main` -/

/-- What the outside world would answer to each I/O call `main` makes:
`cmdOut` is the `pacman -Qeq` outcome (see `read_current_packages`),
`loadedCache` what `load_cache` would return for `/tmp/pkglist_cache.json`,
`logBytes` what `read_log_file` would return (`none` = I/O error, handled by
`unwrap_or_default`), and `logSize` the `get_log_size` metadata length. -/
structure Env where
  cmdOut : Option String
  loadedCache : Option CacheData
  logBytes : Option (List Nat)
  logSize : Nat

/-- The observable outcome of one run of `main`: the printed lines (colour
stripped, per §1 of the spec), the sorted entry list behind them, the cache
record the run ended up using, and counters for the effectful calls —
`load_cache` invocations, `read_log_file` invocations, `parse_log_entries`
invocations, and whether `save_cache` was called. -/
structure RunResult where
  output : List String
  entries : List (String × String × String)
  cacheUsed : Option CacheData
  loads : Nat
  logReads : Nat
  parses : Nat
  saved : Bool
deriving Repr, DecidableEq

/-- The `match load_cache(..)` at the top of `main` (lines 146–162): either
the loaded record passes the guard `pkg_hash == current && last_log_size ==
current` and is reused, or the log is read and re-parsed and a fresh record
with the current fingerprint and size is built.  The two extra components
count `read_log_file` and `parse_log_entries` calls in the branch taken. -/
def refreshCache (loaded : Option CacheData) (currentHash currentSize : Nat)
    (logBytes : Option (List Nat)) : CacheData × Nat × Nat :=
  let recompute : CacheData × Nat × Nat :=
    let log_content := logBytes.getD []
    (⟨currentHash, currentSize, parse_log_entries log_content⟩, 1, 1)
  match loaded with
  | some data =>
    if data.pkg_hash = currentHash ∧ data.last_log_size = currentSize then (data, 0, 0)
    else recompute
  | none => recompute

/-- The second staleness check of `main` (lines 164–171): if the record in
hand still disagrees with the current fingerprint or size, re-read, re-parse,
overwrite the record's fields and call `save_cache`.  The last component
reports whether `save_cache` was called. -/
def secondCheck (c : CacheData) (currentHash currentSize : Nat)
    (logBytes : Option (List Nat)) : CacheData × Nat × Nat × Bool :=
  if c.pkg_hash ≠ currentHash ∨ c.last_log_size ≠ currentSize then
    let log_content := logBytes.getD []
    (⟨currentHash, currentSize, parse_log_entries log_content⟩, 1, 1, true)
  else (c, 0, 0, false)

/-- The sentinel timestamp synthesized for installed packages without
history. -/
def sentinelDate : String := "0000-00-00T00:00:00+0000"

/-- `HashMap::entry(k).or_insert(v)`: insert only when the key is absent. -/
def orInsert {α : Type} (m : List (String × α)) (k : String) (v : α) :
    List (String × α) :=
  match List.lookup k m with
  | some _ => m
  | none => m ++ [(k, v)]

/-- The reconciliation loops of `main` (lines 173–183): copy every cached
`(pkg, info)` into `pkg_set` as `(date, status)` pairs, then `or_insert` each
currently installed package with the sentinel date and status `"INS"`. -/
def reconcile (data : List (String × PackageInfo)) (current_pkgs : List String) :
    List (String × String × String) :=
  let base := data.foldl (fun m kv => assocInsert m kv.1 (kv.2.date, kv.2.status)) []
  current_pkgs.foldl (fun m pkg => orInsert m pkg (sentinelDate, "INS")) base

/-- Comparison used by `pkg_list.sort_unstable_by`: entries ordered by their
date string (`String` order in Lean is lexicographic on scalar values, which
agrees with Rust's byte-wise `String` order because UTF-8 preserves
scalar-value order). -/
def entryLe (a b : String × String × String) : Prop :=
  a.2.1 ≤ b.2.1

instance : DecidableRel entryLe := fun a b =>
  inferInstanceAs (Decidable (a.2.1 ≤ b.2.1))

instance : IsTotal (String × String × String) entryLe :=
  ⟨fun a b => le_total a.2.1 b.2.1⟩

instance : IsTrans (String × String × String) entryLe :=
  ⟨fun _ _ _ h1 h2 => le_trans h1 h2⟩

/-- The sorted presentation list of `main` (lines 185–186). -/
def presentEntries (data : List (String × PackageInfo))
    (current_pkgs : List String) : List (String × String × String) :=
  List.insertionSort entryLe (reconcile data current_pkgs)

/-- One printed line (line 196–201 of `src/main.rs`), colour codes stripped:
`date :: status :: pkg`. -/
def formatEntry (e : String × String × String) : String :=
  e.2.1 ++ " :: " ++ e.2.2 ++ " :: " ++ e.1

/-- `main` of `src/main.rs` as a function of its environment.  The early
return for an empty package list happens before `get_log_size`, `load_cache`
and everything else; otherwise the two staleness blocks run in sequence and
the reconciled, sorted entries are printed.  `main` always returns `Ok(())`,
so the run result carries no error component. -/
def runMain (env : Env) : RunResult :=
  let current_pkgs := read_current_packages env.cmdOut
  if current_pkgs = [] then
    { output := [], entries := [], cacheUsed := none,
      loads := 0, logReads := 0, parses := 0, saved := false }
  else
    let current_pkg_hash := calculate_pkg_hash current_pkgs
    let current_log_size := env.logSize
    let rc := refreshCache env.loadedCache current_pkg_hash current_log_size env.logBytes
    let sc := secondCheck rc.1 current_pkg_hash current_log_size env.logBytes
    let entries := presentEntries sc.1.data current_pkgs
    { output := entries.map formatEntry, entries := entries,
      cacheUsed := some sc.1,
      loads := 1, logReads := rc.2.1 + sc.2.1, parses := rc.2.2 + sc.2.2.1,
      saved := sc.2.2.2 }

/-! ### Spec-side characterisations (used only to state claims) -/

/-- Modelled from the spec's wording for claim C5: the event a line
contributes under the pure grammar, with no minimum-length filter — a
bracketed timestamp, the `[ALPM]` marker, an action keyword and a package
token, anywhere in the line. -/
def grammarEvent (line : List Nat) : Option (String × PackageInfo) :=
  match utf8Decode line with
  | none => none
  | some cps =>
    match regexSearch cps with
    | none => none
    | some (date, act, pkg) =>
      let status :=
        if act = strCps "installed" then "INS"
        else if act = strCps "upgraded" then "UPG"
        else "REM"
      some (cpsToString pkg, ⟨cpsToString date, status⟩)

/-- The event a line contributes for one particular package: its `lineEvent`
when that event is keyed by `pkg`, and nothing otherwise. -/
def eventFor (pkg : String) (line : List Nat) : Option PackageInfo :=
  match lineEvent line with
  | some (k, v) => if k = pkg then some v else none
  | none => none

/-- The event for package `pkg` carried by the last line (in log order) that
the scanning loop accepts for `pkg` — the reference value for last-write-wins
claims. -/
def lastEvent (pkg : String) (ls : List (List Nat)) : Option PackageInfo :=
  ls.reverse.findSome? (eventFor pkg)

/-- The staleness predicate of the spec (§4.4): record absent, fingerprint
mismatch, or log-size mismatch. -/
def staleness (loaded : Option CacheData) (currentHash currentSize : Nat) : Prop :=
  match loaded with
  | none => True
  | some d => d.pkg_hash ≠ currentHash ∨ d.last_log_size ≠ currentSize

instance (loaded : Option CacheData) (h sz : Nat) :
    Decidable (staleness loaded h sz) := by
  unfold staleness
  match loaded with
  | none => exact inferInstance
  | some d => exact inferInstance

/-! ### Lemmas about the staleness pipeline -/

lemma refreshCache_pkg_hash (l : Option CacheData) (h sz : Nat)
    (b : Option (List Nat)) : (refreshCache l h sz b).1.pkg_hash = h := by
  cases l with
  | none => rfl
  | some d =>
    simp only [refreshCache]
    split
    · next hc => exact hc.1
    · rfl

lemma refreshCache_last_log_size (l : Option CacheData) (h sz : Nat)
    (b : Option (List Nat)) : (refreshCache l h sz b).1.last_log_size = sz := by
  cases l with
  | none => rfl
  | some d =>
    simp only [refreshCache]
    split
    · next hc => exact hc.2
    · rfl

lemma refreshCache_parses (l : Option CacheData) (h sz : Nat)
    (b : Option (List Nat)) :
    (refreshCache l h sz b).2.2 = if staleness l h sz then 1 else 0 := by
  cases l with
  | none => simp [refreshCache, staleness]
  | some d =>
    by_cases hc : d.pkg_hash = h ∧ d.last_log_size = sz
    · have : ¬ staleness (some d) h sz := by
        simp [staleness, hc.1, hc.2]
      simp [refreshCache, hc, this]
    · have : staleness (some d) h sz := by
        show d.pkg_hash ≠ h ∨ d.last_log_size ≠ sz
        exact not_and_or.mp hc
      simp [refreshCache, hc, this]

lemma refreshCache_reads (l : Option CacheData) (h sz : Nat)
    (b : Option (List Nat)) :
    (refreshCache l h sz b).2.1 = if staleness l h sz then 1 else 0 := by
  cases l with
  | none => simp [refreshCache, staleness]
  | some d =>
    by_cases hc : d.pkg_hash = h ∧ d.last_log_size = sz
    · have : ¬ staleness (some d) h sz := by
        simp [staleness, hc.1, hc.2]
      simp [refreshCache, hc, this]
    · have : staleness (some d) h sz := by
        show d.pkg_hash ≠ h ∨ d.last_log_size ≠ sz
        exact not_and_or.mp hc
      simp [refreshCache, hc, this]

lemma refreshCache_hit (d : CacheData) (h sz : Nat) (b : Option (List Nat))
    (h1 : d.pkg_hash = h) (h2 : d.last_log_size = sz) :
    refreshCache (some d) h sz b = (d, 0, 0) := by
  simp [refreshCache, h1, h2]

lemma secondCheck_noop (c : CacheData) (h sz : Nat) (b : Option (List Nat))
    (h1 : c.pkg_hash = h) (h2 : c.last_log_size = sz) :
    secondCheck c h sz b = (c, 0, 0, false) := by
  unfold secondCheck
  rw [if_neg (by simp [h1, h2])]

/-- After the first staleness block, the record in hand always carries the
current fingerprint and size, so the second block is inert: `main` reduces to
reconciling and printing the record the first block produced, with no second
parse and no `save_cache` call. -/
lemma runMain_spec (env : Env) (hne : ¬ read_current_packages env.cmdOut = []) :
    runMain env =
      { output := (presentEntries (refreshCache env.loadedCache
            (calculate_pkg_hash (read_current_packages env.cmdOut)) env.logSize
            env.logBytes).1.data (read_current_packages env.cmdOut)).map formatEntry,
        entries := presentEntries (refreshCache env.loadedCache
            (calculate_pkg_hash (read_current_packages env.cmdOut)) env.logSize
            env.logBytes).1.data (read_current_packages env.cmdOut),
        cacheUsed := some (refreshCache env.loadedCache
            (calculate_pkg_hash (read_current_packages env.cmdOut)) env.logSize
            env.logBytes).1,
        loads := 1,
        logReads := (refreshCache env.loadedCache
            (calculate_pkg_hash (read_current_packages env.cmdOut)) env.logSize
            env.logBytes).2.1,
        parses := (refreshCache env.loadedCache
            (calculate_pkg_hash (read_current_packages env.cmdOut)) env.logSize
            env.logBytes).2.2,
        saved := false } := by
  unfold runMain
  rw [if_neg hne]
  dsimp only
  rw [secondCheck_noop _ _ _ _
    (refreshCache_pkg_hash env.loadedCache _ env.logSize env.logBytes)
    (refreshCache_last_log_size env.loadedCache _ env.logSize env.logBytes)]
  simp

/-! ### Claims about the run pipeline -/

/-- C1 — the code diverges from this claim.  On a stale run (here: cache file
absent) the log is indeed re-parsed exactly once, but `save_cache` is never
called: the stale arm of the `match` already stores the current fingerprint
and log size into the record, so the rewrite guard at line 164 of
`src/main.rs` is false on every path and no cache write ever occurs, on this
run or any other. -/
theorem stale_run_reparses_once_but_never_writes_cache :
    (runMain ⟨some "foo\n", none, none, 0⟩).parses = 1 ∧
    (runMain ⟨some "foo\n", none, none, 0⟩).saved = false ∧
    ∀ env : Env, (runMain env).saved = false := by
  refine ⟨by decide, by decide, fun env => ?_⟩
  by_cases he : read_current_packages env.cmdOut = []
  · unfold runMain
    rw [if_pos he]
  · rw [runMain_spec env he]

/-- C2 — confirmed.  With a nonempty installed list, the log is re-parsed
exactly once when the staleness condition (record absent, fingerprint
mismatch, or log-size mismatch) holds and not at all otherwise; on a cache
hit `read_log_file` is never called and the loaded record itself is the one
reconciled. -/
theorem reparse_iff_stale_and_hit_reuses_cache (env : Env)
    (hne : ¬ read_current_packages env.cmdOut = []) :
    ((runMain env).parses = 1 ↔
      staleness env.loadedCache
        (calculate_pkg_hash (read_current_packages env.cmdOut)) env.logSize) ∧
    ((runMain env).parses = 0 ↔
      ¬ staleness env.loadedCache
        (calculate_pkg_hash (read_current_packages env.cmdOut)) env.logSize) ∧
    (¬ staleness env.loadedCache
        (calculate_pkg_hash (read_current_packages env.cmdOut)) env.logSize →
      (runMain env).logReads = 0 ∧ (runMain env).cacheUsed = env.loadedCache) := by
  rw [runMain_spec env hne]
  dsimp only
  rw [refreshCache_parses, refreshCache_reads]
  refine ⟨?_, ?_, ?_⟩
  · by_cases hstale : staleness env.loadedCache
      (calculate_pkg_hash (read_current_packages env.cmdOut)) env.logSize <;>
      simp [hstale]
  · by_cases hstale : staleness env.loadedCache
      (calculate_pkg_hash (read_current_packages env.cmdOut)) env.logSize <;>
      simp [hstale]
  · intro hstale
    refine ⟨by simp [hstale], ?_⟩
    match hl : env.loadedCache with
    | none => rw [hl] at hstale; exact absurd trivial hstale
    | some d =>
      rw [hl] at hstale
      have hfields : d.pkg_hash = calculate_pkg_hash (read_current_packages env.cmdOut) ∧
          d.last_log_size = env.logSize := by
        by_contra hc
        exact hstale (show d.pkg_hash ≠ _ ∨ d.last_log_size ≠ _ from not_and_or.mp hc)
      rw [refreshCache_hit d _ _ _ hfields.1 hfields.2]

/-- Witness for C2 at a concrete environment: installed set `["foo"]`, no
cache file — the staleness condition holds and exactly one parse happens. -/
theorem reparse_iff_stale_witness :
    (runMain ⟨some "foo\n", none, none, 0⟩).parses = 1 :=
  ((reparse_iff_stale_and_hit_reuses_cache ⟨some "foo\n", none, none, 0⟩
    (by decide)).1).mpr trivial

/-- C8 — confirmed.  The entry sequence the program prints (the `output`
lines are exactly `entries.map formatEntry`) is sorted non-decreasing by its
timestamp string; `String` order is lexicographic on scalar values, which
coincides with byte-wise comparison of the UTF-8 encodings. -/
theorem printed_entries_sorted_by_date (env : Env) :
    List.Sorted entryLe (runMain env).entries ∧
    (runMain env).output = (runMain env).entries.map formatEntry := by
  by_cases he : read_current_packages env.cmdOut = []
  · unfold runMain
    rw [if_pos he]
    exact ⟨List.sorted_nil, rfl⟩
  · rw [runMain_spec env he]
    exact ⟨List.sorted_insertionSort entryLe _, rfl⟩

/-- C9 — confirmed.  If `read_current_packages` comes back empty (spawn
failure, non-success exit and empty stdout all produce the empty list), the
run terminates at the early return: no output, no `load_cache`, no
`read_log_file`, no parse, no `save_cache`, and `main` still returns
`Ok(())`. -/
theorem empty_package_list_early_exit (env : Env)
    (he : read_current_packages env.cmdOut = []) :
    runMain env = ⟨[], [], none, 0, 0, 0, false⟩ := by
  unfold runMain
  rw [if_pos he]

/-- Witness for C9: a failed `pacman` invocation. -/
theorem empty_package_list_early_exit_witness :
    runMain ⟨none, none, some (strCps "[2024-01-01T10:00:00+0000] [ALPM] installed foo (1.0-1)\n"), 56⟩ =
      ⟨[], [], none, 0, 0, 0, false⟩ :=
  empty_package_list_early_exit _ rfl

/-! ### Claims about the cache store -/

/-- C4 — confirmed.  Every state a reader can observe while `save_cache`
runs (including a crash in the middle of the temporary-file write, whose
half-written content `w` is arbitrary) shows the target path either with its
previous content or with the complete encoded record — never anything
partial — because the only operation touching the target is the final atomic
rename. -/
theorem save_cache_atomic_replace_visibility (fs : FsState) (cache_file : String)
    (data : CacheData) (w : FileData) (hne : withExtTmp cache_file ≠ cache_file) :
    ∀ s ∈ saveStates fs cache_file data w,
      s cache_file = fs cache_file ∨
      s cache_file = some (.complete (encodeCacheData data)) := by
  intro s hs
  simp only [saveStates, List.mem_cons, List.not_mem_nil, or_false] at hs
  rcases hs with rfl | rfl | rfl | rfl
  · exact Or.inl rfl
  · exact Or.inl (by unfold fsSet; rw [if_neg (fun hq => hne hq.symm)])
  · exact Or.inl (by unfold fsSet; rw [if_neg (fun hq => hne hq.symm)])
  · refine Or.inr ?_
    unfold save_cache fsRename fsSet
    rw [if_pos rfl, if_pos rfl]

/-- Witness for C4 at the program's actual cache path, observing the final
state of the sequence. -/
theorem save_cache_atomic_replace_visibility_witness :
    save_cache (fun _ => none) "/tmp/pkglist_cache.json" ⟨0, 0, []⟩
        "/tmp/pkglist_cache.json" =
      (fun _ => (none : Option FileData)) "/tmp/pkglist_cache.json" ∨
    save_cache (fun _ => none) "/tmp/pkglist_cache.json" ⟨0, 0, []⟩
        "/tmp/pkglist_cache.json" =
      some (.complete (encodeCacheData ⟨0, 0, []⟩)) :=
  save_cache_atomic_replace_visibility (fun _ => none) "/tmp/pkglist_cache.json"
    ⟨0, 0, []⟩ .midWrite (by decide) _
    (by simp [saveStates])

lemma decodePackageInfo_encode (v : PackageInfo) :
    decodePackageInfo (encodePackageInfo v) = some v := rfl

lemma decodeEntries_encode (l : List (String × PackageInfo)) :
    decodeEntries (l.map (fun kv => (kv.1, encodePackageInfo kv.2))) = some l := by
  induction l with
  | nil => rfl
  | cons kv rest ih =>
    simp only [List.map_cons, decodeEntries, decodePackageInfo_encode, ih]

lemma assocInsert_of_not_mem {α : Type} (m : List (String × α)) (k : String)
    (v : α) (hk : k ∉ m.map Prod.fst) : assocInsert m k v = m ++ [(k, v)] := by
  induction m with
  | nil => rfl
  | cons kv rest ih =>
    simp only [List.map_cons, List.mem_cons] at hk
    push_neg at hk
    unfold assocInsert
    rw [if_neg (fun hq => hk.1 hq.symm)]
    simp [ih hk.2]

lemma foldl_assocInsert_eq_append {α : Type} :
    ∀ (l m : List (String × α)), (((m ++ l).map Prod.fst).Nodup) →
      l.foldl (fun acc kv => assocInsert acc kv.1 kv.2) m = m ++ l := by
  intro l
  induction l with
  | nil => intro m _; simp
  | cons kv rest ih =>
    intro m hnd
    have hk : kv.1 ∉ m.map Prod.fst := by
      rw [List.map_append] at hnd
      intro hmem
      exact (List.disjoint_of_nodup_append hnd) hmem
        (by simp)
    have step : assocInsert m kv.1 kv.2 = m ++ [kv] := by
      rw [assocInsert_of_not_mem m kv.1 kv.2 hk]
    have hnd2 : (((m ++ [kv]) ++ rest).map Prod.fst).Nodup := by
      rw [List.append_assoc]
      simpa using hnd
    calc (kv :: rest).foldl (fun acc p => assocInsert acc p.1 p.2) m
        = rest.foldl (fun acc p => assocInsert acc p.1 p.2) (m ++ [kv]) := by
          simp only [List.foldl_cons, step]
      _ = (m ++ [kv]) ++ rest := ih (m ++ [kv]) hnd2
      _ = m ++ kv :: rest := by simp

lemma decode_encode (r : CacheData) (hnd : (r.data.map Prod.fst).Nodup)
    (hh : r.pkg_hash < 2 ^ 64) (hs : r.last_log_size < 2 ^ 64) :
    decodeCacheData (encodeCacheData r) = some r := by
  have hfold : r.data.foldl (fun m kv => assocInsert m kv.1 kv.2) [] = r.data := by
    simpa using foldl_assocInsert_eq_append r.data [] (by simpa using hnd)
  show (if r.pkg_hash < 2 ^ 64 ∧ r.last_log_size < 2 ^ 64 then
      (decodeEntries (r.data.map (fun kv => (kv.1, encodePackageInfo kv.2)))).map
        (fun l => ⟨r.pkg_hash, r.last_log_size,
          l.foldl (fun m kv => assocInsert m kv.1 kv.2) []⟩)
    else none) = some r
  rw [if_pos ⟨hh, hs⟩, decodeEntries_encode, Option.map_some', hfold]

/-- C3 — confirmed.  Saving any record and loading the same path back yields
`some` of the very same record: fingerprint, log byte length, and the entire
event map (the `HashMap` cannot hold duplicate keys, whence the `Nodup`
hypothesis; its fields are `u64`, whence the range bounds). -/
theorem save_then_load_roundtrip (fs : FsState) (p : String) (r : CacheData)
    (hnd : (r.data.map Prod.fst).Nodup)
    (hh : r.pkg_hash < 2 ^ 64) (hs : r.last_log_size < 2 ^ 64) :
    load_cache (save_cache fs p r) p = some r := by
  unfold load_cache save_cache fsRename fsSet
  rw [if_pos rfl, if_pos rfl]
  exact decode_encode r hnd hh hs

/-- Witness for C3: a nonempty record round-trips at the program's cache
path on an empty file system. -/
theorem save_then_load_roundtrip_witness :
    load_cache (save_cache (fun _ => none) "/tmp/pkglist_cache.json"
        ⟨1, 2, [("foo", ⟨"2024-01-01T10:00:00+0000", "INS"⟩)]⟩)
      "/tmp/pkglist_cache.json" =
      some ⟨1, 2, [("foo", ⟨"2024-01-01T10:00:00+0000", "INS"⟩)]⟩ :=
  save_then_load_roundtrip _ _ _ (by decide) (by decide) (by decide)

/-! ### Claims about the parser -/

lemma lookup_assocInsert_self {α : Type} (m : List (String × α)) (k : String)
    (v : α) : List.lookup k (assocInsert m k v) = some v := by
  induction m with
  | nil => simp [assocInsert, List.lookup]
  | cons kv rest ih =>
    obtain ⟨k1, v1⟩ := kv
    unfold assocInsert
    by_cases h : k1 = k
    · rw [if_pos h]
      simp [List.lookup]
    · rw [if_neg h]
      have hb : (k == k1) = false := beq_eq_false_iff_ne.mpr (fun hq => h hq.symm)
      simp [List.lookup, hb, ih]

lemma lookup_assocInsert_ne {α : Type} (m : List (String × α)) (k pkg : String)
    (v : α) (h : k ≠ pkg) :
    List.lookup pkg (assocInsert m k v) = List.lookup pkg m := by
  have hb : (pkg == k) = false := beq_eq_false_iff_ne.mpr (fun hq => h hq.symm)
  induction m with
  | nil => simp [assocInsert, List.lookup, hb]
  | cons kv rest ih =>
    obtain ⟨k1, v1⟩ := kv
    unfold assocInsert
    by_cases hq : k1 = k
    · rw [if_pos hq]
      subst hq
      simp [List.lookup, hb]
    · rw [if_neg hq]
      simp only [List.lookup]
      cases hx : (pkg == k1) <;> simp [ih]

lemma lastEvent_append_singleton (pkg : String) (ls : List (List Nat))
    (line : List Nat) :
    lastEvent pkg (ls ++ [line]) =
      match eventFor pkg line with
      | some v => some v
      | none => lastEvent pkg ls := by
  unfold lastEvent
  rw [List.reverse_append]
  cases h : eventFor pkg line <;> simp [List.findSome?_cons, h]

lemma lookup_foldl_applyLine :
    ∀ (ls : List (List Nat)) (m : List (String × PackageInfo)) (pkg : String),
      List.lookup pkg (ls.foldl applyLine m) =
        match lastEvent pkg ls with
        | some v => some v
        | none => List.lookup pkg m := by
  intro ls
  induction ls using List.reverseRecOn with
  | nil => intro m pkg; simp [lastEvent]
  | append_singleton ls line ih =>
    intro m pkg
    rw [List.foldl_append, lastEvent_append_singleton]
    simp only [List.foldl_cons, List.foldl_nil]
    cases h : lineEvent line with
    | none =>
      have he : eventFor pkg line = none := by simp [eventFor, h]
      rw [he]
      simp only [applyLine, h]
      exact ih m pkg
    | some kv =>
      obtain ⟨k, v⟩ := kv
      by_cases hk : k = pkg
      · subst hk
        have he : eventFor k line = some v := by simp [eventFor, h]
        rw [he]
        simp only [applyLine, h]
        rw [lookup_assocInsert_self]
      · have he : eventFor pkg line = none := by simp [eventFor, h, hk]
        rw [he]
        simp only [applyLine, h]
        rw [lookup_assocInsert_ne _ _ _ _ hk]
        exact ih m pkg

/-- C5 — counterexample to the claim as stated.  The line
`[2024-01-01T10:00:00+0000] [ALPM] removed x` matches the event grammar
(first conjunct) and is the newline-terminated last line of the log (second
conjunct), yet the parsed map carries nothing for `x` (third conjunct): at
43 bytes the line falls under the 50-byte rejection filter. -/
theorem short_matching_line_ignored :
    grammarEvent (strCps "[2024-01-01T10:00:00+0000] [ALPM] removed x") =
      some ("x", ⟨"2024-01-01T10:00:00+0000", "REM"⟩) ∧
    terminatedLines (strCps "[2024-01-01T10:00:00+0000] [ALPM] removed x" ++ [10]) =
      [strCps "[2024-01-01T10:00:00+0000] [ALPM] removed x"] ∧
    List.lookup "x"
      (parse_log_entries
        (strCps "[2024-01-01T10:00:00+0000] [ALPM] removed x" ++ [10])) = none :=
  ⟨by decide, by decide, by decide⟩

/-- C5 — amended: the map sends each package to the event of the last
newline-terminated line of at least 50 bytes that matches the grammar and
names that package (`lastEvent` over `lineEvent`); all other lines contribute
nothing, and `lineEvent` is exactly the grammar match gated by the 50-byte
filter (second conjunct). -/
theorem lookup_parse_eq_last_accepted_line :
    ∀ (content line : List Nat) (pkg : String),
      List.lookup pkg (parse_log_entries content) =
        lastEvent pkg (terminatedLines content) ∧
      lineEvent line = if line.length < 50 then none else grammarEvent line := by
  intro content line pkg
  constructor
  · unfold parse_log_entries
    rw [lookup_foldl_applyLine]
    cases h : lastEvent pkg (terminatedLines content) <;> simp
  · by_cases hl : line.length < 50
    · rw [lineEvent, if_pos hl, if_pos hl]
    · rw [lineEvent, if_neg hl, if_neg hl, grammarEvent]

/-- C6 — confirmed.  With the one-line log of the scenario and installed set
`["foo"]` (fresh run, no cache file), the program prints exactly
`2024-01-01T10:00:00+0000 :: INS :: foo`: the parsed history entry wins and
the sentinel timestamp is not used. -/
theorem single_install_line_scenario_output :
    (runMain ⟨some "foo\n", none,
        some (strCps "[2024-01-01T10:00:00+0000] [ALPM] installed foo (1.0-1)\n"),
        56⟩).output =
      ["2024-01-01T10:00:00+0000 :: INS :: foo"] := by
  decide

/-! ### Claims about reconciliation -/

lemma lookup_map_values {α β : Type} (f : α → β) :
    ∀ (data : List (String × α)) (k : String),
      List.lookup k (data.map (fun kv => (kv.1, f kv.2))) =
        (List.lookup k data).map f := by
  intro data
  induction data with
  | nil => intro k; rfl
  | cons kv rest ih =>
    intro k
    obtain ⟨k1, v1⟩ := kv
    simp only [List.map_cons, List.lookup]
    cases hx : (k == k1) <;> simp [ih]

lemma lookup_append_cases {α : Type} (l1 l2 : List (String × α)) (k : String) :
    List.lookup k (l1 ++ l2) =
      match List.lookup k l1 with
      | some v => some v
      | none => List.lookup k l2 := by
  induction l1 with
  | nil => simp
  | cons kv rest ih =>
    obtain ⟨k1, v1⟩ := kv
    simp only [List.cons_append, List.lookup]
    cases hx : (k == k1) <;> simp [ih]

lemma lookup_orInsert {α : Type} (m : List (String × α)) (p k : String) (v0 : α) :
    List.lookup k (orInsert m p v0) =
      match List.lookup k m with
      | some v => some v
      | none => if k = p then some v0 else none := by
  unfold orInsert
  cases hp : List.lookup p m with
  | some w =>
    cases hk : List.lookup k m with
    | some v => simp [hk]
    | none =>
      by_cases hkp : k = p
      · subst hkp; rw [hk] at hp; exact absurd hp (by simp)
      · simp [hk, hkp]
  | none =>
    rw [lookup_append_cases]
    cases hk : List.lookup k m with
    | some v => simp [hk]
    | none =>
      by_cases hkp : k = p
      · subst hkp; simp [hk, List.lookup]
      · have hb : (k == p) = false := beq_eq_false_iff_ne.mpr hkp
        simp [hk, hkp, List.lookup, hb]

lemma lookup_foldl_orInsert {α : Type} (v0 : α) :
    ∀ (pkgs : List String) (m : List (String × α)) (k : String),
      List.lookup k (pkgs.foldl (fun acc p => orInsert acc p v0) m) =
        match List.lookup k m with
        | some v => some v
        | none => if k ∈ pkgs then some v0 else none := by
  intro pkgs
  induction pkgs with
  | nil => intro m k; cases h : List.lookup k m <;> simp [h]
  | cons p rest ih =>
    intro m k
    simp only [List.foldl_cons]
    rw [ih, lookup_orInsert]
    cases hk : List.lookup k m with
    | some v => simp
    | none =>
      by_cases hkp : k = p
      · subst hkp; simp
      · simp [hkp]

/-- C7 — confirmed.  Looking any package up in the reconciled map gives its
cached event (date and status unchanged) whenever the cache has one — even
for packages no longer installed, so removal history survives — and the
sentinel `0000-00-00T00:00:00+0000 / INS` entry exactly for installed
packages with no cached history; a sentinel never replaces a cached entry.
The `Nodup` hypothesis holds of any real event map, since `HashMap` keys are
unique. -/
theorem reconcile_union_lookup (data : List (String × PackageInfo))
    (pkgs : List String) (k : String) (hnd : (data.map Prod.fst).Nodup) :
    List.lookup k (reconcile data pkgs) =
      match List.lookup k data with
      | some i => some (i.date, i.status)
      | none => if k ∈ pkgs then some (sentinelDate, "INS") else none := by
  unfold reconcile
  have hbase : data.foldl (fun m kv => assocInsert m kv.1 (kv.2.date, kv.2.status)) [] =
      data.map (fun kv => (kv.1, (kv.2.date, kv.2.status))) := by
    calc data.foldl (fun m kv => assocInsert m kv.1 (kv.2.date, kv.2.status)) []
        = (data.map (fun kv => (kv.1, (kv.2.date, kv.2.status)))).foldl
            (fun m kv => assocInsert m kv.1 kv.2) [] := by
          rw [List.foldl_map]
      _ = [] ++ data.map (fun kv => (kv.1, (kv.2.date, kv.2.status))) :=
          foldl_assocInsert_eq_append _ _
            (by simpa [List.map_map, Function.comp] using hnd)
      _ = data.map (fun kv => (kv.1, (kv.2.date, kv.2.status))) := by simp
  rw [hbase, lookup_foldl_orInsert,
    lookup_map_values (fun i => (i.date, i.status)) data k]
  cases h : List.lookup k data <;> simp

/-- Witness for C7: a cache holding only a removed `baz`, installed set
`["bar"]` — `bar` gets the sentinel entry. -/
theorem reconcile_union_lookup_witness :
    List.lookup "bar"
      (reconcile [("baz", ⟨"2024-01-01T10:00:00+0000", "REM"⟩)] ["bar"]) =
      some (sentinelDate, "INS") :=
  (reconcile_union_lookup [("baz", ⟨"2024-01-01T10:00:00+0000", "REM"⟩)] ["bar"]
    "bar" (by decide)).trans (by decide)

/-! ### Claim C10: what the scanning loop never looks at -/

lemma linesAux_no_nl : ∀ (ext acc : List Nat), (∀ b ∈ ext, b ≠ 10) →
    linesAux ext acc = [] := by
  intro ext
  induction ext with
  | nil => intro acc _; rfl
  | cons b rest ih =>
    intro acc hno
    unfold linesAux
    rw [if_neg (hno b (by simp))]
    exact ih _ (fun x hx => hno x (by simp [hx]))

lemma linesAux_append_no_nl : ∀ (l ext acc : List Nat), (∀ b ∈ ext, b ≠ 10) →
    linesAux (l ++ ext) acc = linesAux l acc := by
  intro l
  induction l with
  | nil =>
    intro ext acc hno
    simpa using linesAux_no_nl ext acc hno
  | cons b rest ih =>
    intro ext acc hno
    simp only [List.cons_append]
    unfold linesAux
    by_cases hb : b = 10
    · rw [if_pos hb, if_pos hb, ih ext [] hno]
    · rw [if_neg hb, if_neg hb, ih ext (b :: acc) hno]

lemma linesAux_line_nl : ∀ (line rest acc : List Nat), (∀ b ∈ line, b ≠ 10) →
    linesAux (line ++ 10 :: rest) acc = (acc.reverse ++ line) :: linesAux rest [] := by
  intro line
  induction line with
  | nil =>
    intro rest acc _
    simp [linesAux]
  | cons b bs ih =>
    intro rest acc hno
    simp only [List.cons_append]
    rw [linesAux]
    rw [if_neg (hno b (by simp))]
    rw [ih rest (b :: acc) (fun x hx => hno x (by simp [hx]))]
    simp

/-- C10 — confirmed.  The scanning loop only ever examines newline-terminated
lines of at least 50 bytes: trailing bytes after the final newline are never
parsed (first conjunct), a line under 50 bytes yields no event (second
conjunct), and a newline-terminated line under 50 bytes contributes nothing
to the parse even when the preceding and following log content is arbitrary
(third conjunct). -/
theorem only_terminated_long_lines_parsed (content ext line rest : List Nat) :
    ((∀ b ∈ ext, b ≠ 10) →
      parse_log_entries (content ++ ext) = parse_log_entries content) ∧
    (line.length < 50 → lineEvent line = none) ∧
    (line.length < 50 → (∀ b ∈ line, b ≠ 10) →
      parse_log_entries (line ++ 10 :: rest) = parse_log_entries rest) := by
  refine ⟨fun hext => ?_, fun hlen => ?_, fun hlen hnl => ?_⟩
  · unfold parse_log_entries terminatedLines
    rw [linesAux_append_no_nl content ext [] hext]
  · unfold lineEvent
    rw [if_pos hlen]
  · unfold parse_log_entries terminatedLines
    rw [linesAux_line_nl line rest [] hnl]
    simp only [List.reverse_nil, List.nil_append, List.foldl_cons]
    have hev : applyLine [] line = [] := by
      unfold applyLine
      rw [show lineEvent line = none from by unfold lineEvent; rw [if_pos hlen]]
    rw [hev]

/-- Witness for C10: an unterminated trailing grammar-matching line changes
nothing, and a short grammar-matching line yields no event. -/
theorem only_terminated_long_lines_parsed_witness :
    parse_log_entries
        (strCps "[2024-01-01T10:00:00+0000] [ALPM] installed foo (1.0-1)\n" ++
          strCps "[2024-02-02T10:00:00+0000] [ALPM] installed bar (1.0-1)") =
      parse_log_entries
        (strCps "[2024-01-01T10:00:00+0000] [ALPM] installed foo (1.0-1)\n") ∧
    lineEvent (strCps "[0] [ALPM] removed x") = none :=
  ⟨(only_terminated_long_lines_parsed
      (strCps "[2024-01-01T10:00:00+0000] [ALPM] installed foo (1.0-1)\n")
      (strCps "[2024-02-02T10:00:00+0000] [ALPM] installed bar (1.0-1)") [] []).1
      (by decide),
   (only_terminated_long_lines_parsed [] [] (strCps "[0] [ALPM] removed x") []).2.1
      (by decide)⟩
